import Mathlib

/-!
Shallow embedding of the `quaero` recursive filesystem search utility
(`src/main.rs`) and proofs about its core: entry classification,
depth-bounded recursive walk with exclusion pruning, search-mode
deduction, and the matching strategies.

Rust `Result<T, anyhow::Error>` is modelled as `Except String` when the
code can only return `Ok`/`Err`, and as the three-valued `RRes` where a
code path can additionally panic (`unwrap()` on `Err`/`None`, or
`unreachable!()`).  Machine integers (the permission mode, a `u32`) are
modelled as `Nat`; the only operation used on them is `&` (`Nat.land`).
The filesystem is an explicit oracle (`FileSystem`): `read_dir` and
`canonicalize` become functions of the path string, exactly the two
primitives the walker consumes.
-/

/-- Outcome of running a piece of Rust code that returns
`Result<α, anyhow::Error>` but may also panic: `ok`, `err` (the
propagated error, modelled by its message) or `panic`
(`unwrap`/`unreachable!`). -/
inductive RRes (α : Type) where
  | ok (a : α)
  | err (msg : String)
  | panic
deriving DecidableEq, Repr

/-- The four entry kinds of `enum FileType` in `src/main.rs`. -/
inductive FileType where
  | Directory
  | RegularFile
  | SymLink
  | Executable
deriving DecidableEq, Repr

/-- `enum FileModeMask { Executable = 0o111 }` from `src/main.rs`. -/
inductive FileModeMask where
  | Executable
deriving DecidableEq, Repr

/-- The numeric value of a `FileModeMask` variant (`as u32` in the source). -/
def FileModeMask.toU32 : FileModeMask → Nat
  | .Executable => 0o111

/-- Is `b` a UTF-8 continuation byte (`0x80..=0xBF`)? -/
def isUtf8Cont (b : Nat) : Bool :=
  0x80 ≤ b && b ≤ 0xBF

/-- Decode a byte sequence as UTF-8, exactly the validation performed by
Rust's `OsString::into_string` (via `str::from_utf8`): ASCII, 2-byte
(`0xC2..=0xDF`), 3-byte (with the overlong / surrogate exclusions on the
second byte after `0xE0`/`0xED`) and 4-byte (with the range exclusions
after `0xF0`/`0xF4`) sequences; `none` on any ill-formed input. -/
def utf8Decode : List Nat → Option (List Char)
  | [] => some []
  | b0 :: rest =>
    if b0 ≤ 0x7F then
      (utf8Decode rest).map (fun cs => Char.ofNat b0 :: cs)
    else if 0xC2 ≤ b0 && b0 ≤ 0xDF then
      match rest with
      | b1 :: rest2 =>
        if isUtf8Cont b1 then
          (utf8Decode rest2).map (fun cs =>
            Char.ofNat ((b0 - 0xC0) * 0x40 + (b1 - 0x80)) :: cs)
        else none
      | [] => none
    else if 0xE0 ≤ b0 && b0 ≤ 0xEF then
      match rest with
      | b1 :: b2 :: rest2 =>
        if (if b0 = 0xE0 then 0xA0 ≤ b1 && b1 ≤ 0xBF
            else if b0 = 0xED then 0x80 ≤ b1 && b1 ≤ 0x9F
            else isUtf8Cont b1) && isUtf8Cont b2 then
          (utf8Decode rest2).map (fun cs =>
            Char.ofNat ((b0 - 0xE0) * 0x1000 + (b1 - 0x80) * 0x40 + (b2 - 0x80)) :: cs)
        else none
      | _ => none
    else if 0xF0 ≤ b0 && b0 ≤ 0xF4 then
      match rest with
      | b1 :: b2 :: b3 :: rest2 =>
        if (if b0 = 0xF0 then 0x90 ≤ b1 && b1 ≤ 0xBF
            else if b0 = 0xF4 then 0x80 ≤ b1 && b1 ≤ 0x8F
            else isUtf8Cont b1) && isUtf8Cont b2 && isUtf8Cont b3 then
          (utf8Decode rest2).map (fun cs =>
            Char.ofNat ((b0 - 0xF0) * 0x40000 + (b1 - 0x80) * 0x1000
              + (b2 - 0x80) * 0x40 + (b3 - 0x80)) :: cs)
        else none
      | _ => none
    else none

/-- Rust `OsString::into_string : OsString -> Result<String, OsString>`:
succeeds exactly on valid UTF-8, otherwise gives the bytes back. -/
def osStringIntoString (bytes : List Nat) : Except (List Nat) String :=
  match utf8Decode bytes with
  | some cs => .ok (String.mk cs)
  | none => .error bytes

instance {ε α : Type} [DecidableEq ε] [DecidableEq α] : DecidableEq (Except ε α) := by
  intro a b
  cases a <;> cases b
  case error.error e f =>
    exact if h : e = f then .isTrue (by rw [h]) else .isFalse (by intro hc; cases hc; exact h rfl)
  case ok.ok x y =>
    exact if h : x = y then .isTrue (by rw [h]) else .isFalse (by intro hc; cases hc; exact h rfl)
  case error.ok e x => exact .isFalse (by intro hc; cases hc)
  case ok.error x e => exact .isFalse (by intro hc; cases hc)

/-- A raw `std::fs::DirEntry` as the classifier consumes it: the result
of `entry.file_type()` (the `is_dir`/`is_file`/`is_symlink` bits, or an
io error), the result of `entry.metadata()?.permissions().mode()`, and
the `entry.file_name()` bytes (an `OsString`; Unix file names are
arbitrary bytes, not necessarily UTF-8). -/
structure RawDirEntry where
  fileTypeRes : Except String (Bool × Bool × Bool)
  metadataMode : Except String Nat
  fileName : List Nat
deriving DecidableEq, Repr

/-- `impl TryFrom<&DirEntry> for FileType` from `src/main.rs`: query the
type bits; map a directory / regular file / symlink to its kind and any
other combination to `unreachable!()` (a panic); then query the
permission mode and force `Executable` on a non-directory with any
execute bit (`mode & 0o111 != 0`) set. -/
def FileType.tryFrom (entry : RawDirEntry) : RRes FileType :=
  match entry.fileTypeRes with
  | .error e => .err e
  | .ok flags =>
    match (match flags with
           | (true, false, false) => some FileType.Directory
           | (false, true, false) => some FileType.RegularFile
           | (false, false, true) => some FileType.SymLink
           | _ => none) with
    | none => .panic
    | some ft =>
      match entry.metadataMode with
      | .error e => .err e
      | .ok mode =>
        .ok (if ft ≠ FileType.Directory ∧ Nat.land mode FileModeMask.Executable.toU32 ≠ 0
             then FileType.Executable else ft)

/-- `struct ParsedEntry` from `src/main.rs`: kind, base name, full path. -/
structure ParsedEntry where
  file_type : FileType
  name : String
  path : String
deriving DecidableEq, Repr

/-- `PathBuf::join`/`push` for a relative file name: append a `/`
separator unless the directory already ends in one (or is empty), then
the name. -/
def pathJoin (dir name : String) : String :=
  if dir = "" then name
  else if dir.toList.getLast? = some '/' then dir ++ name
  else dir ++ "/" ++ name

/-- `impl TryFrom<DirEntry> for ParsedEntry` from `src/main.rs`:
classify first (`?` propagates errors, `unreachable!` panics), then
`entry.file_name().into_string().unwrap()` — the `unwrap` panics when
the name is not valid UTF-8.  `entry.path()` is the directory the
entries were read from joined with the file name; the directory is
always a Rust `String` here (the start directory or a previous entry's
`path`), so once the name decodes the path does too. -/
def ParsedEntry.tryFrom (directory : String) (entry : RawDirEntry) : RRes ParsedEntry :=
  match FileType.tryFrom entry with
  | .err e => .err e
  | .panic => .panic
  | .ok ft =>
    match osStringIntoString entry.fileName with
    | .error _ => .panic
    | .ok name => .ok ⟨ft, name, pathJoin directory name⟩

/-- Split a character list at every `/`, keeping empty chunks (the raw
component split underlying `Path::components`). -/
def splitSlash : List Char → List (List Char)
  | [] => [[]]
  | c :: rest =>
    match splitSlash rest with
    | [] => [[]]
    | g :: gs => if c = '/' then [] :: g :: gs else (c :: g) :: gs

/-- The normal components of a path string: the non-empty, non-`.`
chunks between `/` separators (as in Rust `Path::components`, which
drops empty chunks and interior `.`). -/
def pathComponents (s : String) : List String :=
  ((splitSlash s.toList).filter (fun c => !c.isEmpty && c ≠ ['.'])).map String.mk

/-- Does the path string start with the root separator (Rust's
`RootDir` component)? -/
def pathIsAbsolute (s : String) : Bool :=
  match s.toList with
  | '/' :: _ => true
  | _ => false

/-- Rust `Path::starts_with`: component-wise prefix — `base` must be a
whole-component prefix of `self`, with the root component compared like
any other (`"/a/bc"` does not start with `"/a/b"`; `"/a"` does not
start with `"a"`). -/
def pathStartsWith (self base : String) : Bool :=
  pathIsAbsolute self = pathIsAbsolute base
    && (pathComponents base).isPrefixOf (pathComponents self)

/-- The filesystem oracle: the two primitives `walk_directory` consumes.
`readDir` models `std::fs::read_dir` (the children of a directory, in
enumeration order, or an io error); `canonicalize` models
`std::fs::canonicalize` (the absolute, symlink-resolved form of a path,
or an error e.g. for a broken symlink). -/
structure FileSystem where
  readDir : String → Except String (List RawDirEntry)
  canonicalize : String → Except String String

/-- The inner loop of the exclusion check in `walk_directory`
(`src/main.rs` lines 89–97): for each exclusion entry in order,
canonicalize the child's path and the exclusion entry (either failure
propagates), and report `true` (skip the child, `continue 'outer`) as
soon as the child's canonical path starts with the exclusion's. -/
def checkExcluded (fs : FileSystem) (path : String) : List String → Except String Bool
  | [] => .ok false
  | ex :: rest =>
    match fs.canonicalize path with
    | .error e => .error e
    | .ok lhs =>
      match fs.canonicalize ex with
      | .error e => .error e
      | .ok rhs =>
        if pathStartsWith lhs rhs then .ok true else checkExcluded fs path rest

/-- The whole exclusion check: skipped entirely when `avoids` is `None`
(`if let Some(excludes) = avoids`), otherwise `checkExcluded` over the
exclusion list. -/
def exclusionDecision (fs : FileSystem) (avoids : Option (List String)) (path : String) :
    Except String Bool :=
  match avoids with
  | none => .ok false
  | some excludes => checkExcluded fs path excludes

/-- The visitor calls made and the directories enumerated by a walk:
the `ParsedEntry` arguments passed to `callback`, in call order, and
the directory paths passed to `read_dir`. -/
abbrev WalkRes := List ParsedEntry × List String

/-- The `'outer: for entry in std::fs::read_dir(directory)?` loop body
of `walk_directory`, one child at a time: parse the child (propagating
errors and panics), skip it if the exclusion check says so, otherwise
record the visitor call and — when the child is a directory — splice in
the recursive walk (`recur`, the walk at the remaining depth) before
moving on to the next sibling. -/
def walkEntries (recur : String → RRes WalkRes) (fs : FileSystem)
    (avoids : Option (List String)) (directory : String) :
    List RawDirEntry → RRes WalkRes
  | [] => .ok ([], [])
  | e :: rest =>
    match ParsedEntry.tryFrom directory e with
    | .err msg => .err msg
    | .panic => .panic
    | .ok p =>
      match exclusionDecision fs avoids p.path with
      | .error msg => .err msg
      | .ok true => walkEntries recur fs avoids directory rest
      | .ok false =>
        match (if p.file_type = FileType.Directory then recur p.path else .ok ([], [])) with
        | .err msg => .err msg
        | .panic => .panic
        | .ok (svis, sds) =>
          match walkEntries recur fs avoids directory rest with
          | .err msg => .err msg
          | .panic => .panic
          | .ok (rvis, rds) => .ok (p :: (svis ++ rvis), sds ++ rds)

/-- `fn walk_directory` from `src/main.rs`: with the remaining `depth`
exhausted (`depth <= 0`, i.e. `0` for a `usize`) return `Ok` at once
without enumerating anything; otherwise enumerate the directory
(`read_dir`, whose failure propagates) and process each child in order,
recursing into child directories with `depth - 1` after the visitor
call.  The result records the visitor calls in order and the
directories enumerated. -/
def walk_directory (fs : FileSystem) (avoids : Option (List String)) :
    Nat → String → RRes WalkRes
  | 0, _ => .ok ([], [])
  | depth + 1, directory =>
    match fs.readDir directory with
    | .error msg => .err msg
    | .ok entries =>
      match walkEntries (walk_directory fs avoids depth) fs avoids directory entries with
      | .err msg => .err msg
      | .panic => .panic
      | .ok (vis, ds) => .ok (vis, directory :: ds)

/-- `std::usize::MAX` on a 64-bit target: the default depth when none
is configured. -/
def USIZE_MAX : Nat := 2 ^ 64 - 1

/-- `enum SearchMode` from `src/main.rs`. -/
inductive SearchMode where
  | Target
  | Type
  | TargetAndType
  | Extension
  | Regex
deriving DecidableEq, Repr

/-- The compiled regex (the external `regex` crate), abstracted as its
matching predicate: `is_match` reports whether the pattern finds a
match anywhere in the haystack. -/
structure Regex where
  is_match : String → Bool

/-- `fn match_target`: print the path iff the entry's base name equals
the target exactly.  Printed lines are returned as a list. -/
def match_target (target : String) (entry : ParsedEntry) : List String :=
  if entry.name = target then [entry.path] else []

/-- `fn match_type`: print the path iff the entry's kind equals the
requested kind exactly. -/
def match_type (target_type : FileType) (entry : ParsedEntry) : List String :=
  if entry.file_type = target_type then [entry.path] else []

/-- Index of the last `.` in a character list, if any. -/
def lastIndexOfDot : List Char → Option Nat
  | [] => none
  | c :: rest =>
    match lastIndexOfDot rest with
    | some i => some (i + 1)
    | none => if c = '.' then some 0 else none

/-- Rust `Path::file_name` on a path string: the last normal component,
`none` when there is none or the path ends in a `..` component. -/
def fileNameOf (path : String) : Option String :=
  match (pathComponents path).getLast? with
  | none => none
  | some c => if c = ".." then none else some c

/-- The extension part of Rust's `split_file_at_dot` on a file name:
`none` when the name has no `.` or its only `.` is the leading
character (a dotfile such as `.bashrc` has no extension); otherwise the
(possibly empty) substring after the last `.`. -/
def extOfFileName (name : String) : Option String :=
  match lastIndexOfDot name.toList with
  | none => none
  | some 0 => none
  | some i => some (String.mk (name.toList.drop (i + 1)))

/-- `fn extension_from_path`: `Path::new(path).extension()` — the
extension of the path's file name. -/
def extension_from_path (path : String) : Option String :=
  (fileNameOf path).bind extOfFileName

/-- `fn match_extensions`: extract the path's extension; if there is
one, print the path once for every member of `extensions` equal to it
(the loop has no break, so each equal member prints a line). -/
def match_extensions (extensions : List String) (entry : ParsedEntry) : List String :=
  match extension_from_path entry.path with
  | none => []
  | some target_extension =>
    (extensions.filter (fun extension => extension = target_extension)).map
      (fun _ => entry.path)

/-- `fn match_regex`: print the path iff the compiled pattern finds a
match anywhere within the full path string. -/
def match_regex (regex : Regex) (entry : ParsedEntry) : List String :=
  if regex.is_match entry.path then [entry.path] else []

/-- `fn match_target_and_type`: print the path iff both the exact-name
and the exact-kind tests hold. -/
def match_target_and_type (target : String) (target_type : FileType)
    (entry : ParsedEntry) : List String :=
  if entry.name = target ∧ entry.file_type = target_type then [entry.path] else []

/-- `fn deduce_search_mode` from `src/main.rs`: the ordered match on
`(target, target_type, extensions, regex)` — target alone, then type
alone, then extensions present, then regex present, then target and
type together, otherwise a configuration error. -/
def deduce_search_mode (target : Option String) (target_type : Option FileType)
    (extensions : Option (List String)) (regex : Option Regex) :
    Except String SearchMode :=
  match target, target_type, extensions, regex with
  | some _, none, _, _ => .ok SearchMode.Target
  | none, some _, _, _ => .ok SearchMode.Type
  | _, _, some _, _ => .ok SearchMode.Extension
  | _, _, _, some _ => .ok SearchMode.Regex
  | some _, some _, _, _ => .ok SearchMode.TargetAndType
  | _, _, _, _ =>
    .error "Either a target to find or a file type to search must be specified"

/-- The dispatch closure built in `main`: run the matcher selected by
the search mode on one visited entry, returning the printed lines.  The
`unwrap()`s on the option payloads panic when the payload is absent
(unreachable under the mode `deduce_search_mode` returned). -/
def dispatchEntry (mode : SearchMode) (target : Option String)
    (target_type : Option FileType) (extensions : Option (List String))
    (regex : Option Regex) (entry : ParsedEntry) : RRes (List String) :=
  match mode with
  | .Target => match target with
    | some t => .ok (match_target t entry)
    | none => .panic
  | .Type => match target_type with
    | some k => .ok (match_type k entry)
    | none => .panic
  | .Extension => match extensions with
    | some es => .ok (match_extensions es entry)
    | none => .panic
  | .Regex => match regex with
    | some r => .ok (match_regex r entry)
    | none => .panic
  | .TargetAndType => match target, target_type with
    | some t, some k => .ok (match_target_and_type t k entry)
    | _, _ => .panic

/-- Run the dispatch over the visitor-call sequence of a walk,
concatenating the printed lines in order. -/
def collectOutputs (mode : SearchMode) (target : Option String)
    (target_type : Option FileType) (extensions : Option (List String))
    (regex : Option Regex) : List ParsedEntry → RRes (List String)
  | [] => .ok []
  | e :: rest =>
    match dispatchEntry mode target target_type extensions regex e with
    | .err msg => .err msg
    | .panic => .panic
    | .ok lines =>
      match collectOutputs mode target target_type extensions regex rest with
      | .err msg => .err msg
      | .panic => .panic
      | .ok more => .ok (lines ++ more)

/-- `fn main` after CLI parsing: deduce the search mode (its failure is
surfaced before any traversal — the filesystem is never consulted),
default the depth to `usize::MAX` when none is configured, run the walk
with the dispatch closure as visitor, and return the printed lines. -/
def run_search (fs : FileSystem) (target : Option String)
    (target_type : Option FileType) (extensions : Option (List String))
    (regex : Option Regex) (start_directory : String)
    (avoids : Option (List String)) (depth : Option Nat) : RRes (List String) :=
  match deduce_search_mode target target_type extensions regex with
  | .error msg => .err msg
  | .ok mode =>
    match walk_directory fs avoids (depth.getD USIZE_MAX) start_directory with
    | .err msg => .err msg
    | .panic => .panic
    | .ok (vis, _) => collectOutputs mode target target_type extensions regex vis

/-- `p` is a classified entry exactly `k` directory levels below the
start directory `d`: at level `1` it parses from a child of `d`, and at
level `k + 1` it lies `k` levels below the path of a directory-kind
child of `d`. -/
inductive VisitedAtDepth (fs : FileSystem) : String → ParsedEntry → Nat → Prop where
  | base (d : String) (entries : List RawDirEntry) (e : RawDirEntry) (p : ParsedEntry) :
      fs.readDir d = .ok entries → e ∈ entries → ParsedEntry.tryFrom d e = .ok p →
      VisitedAtDepth fs d p 1
  | step (d : String) (entries : List RawDirEntry) (e : RawDirEntry)
      (q p : ParsedEntry) (k : Nat) :
      fs.readDir d = .ok entries → e ∈ entries → ParsedEntry.tryFrom d e = .ok q →
      q.file_type = FileType.Directory → VisitedAtDepth fs q.path p k →
      VisitedAtDepth fs d p (k + 1)

/-- What one child of `directory` contributes to the visitor-call
sequence of a successful walk: the child parses to some `p`; an
excluded child contributes nothing; a non-excluded child contributes
exactly one visit of `p` followed — only when `p` is a directory — by
the visits of the recursive walk (`recur`) of `p.path`. -/
def Contribution (recur : String → RRes WalkRes) (fs : FileSystem)
    (avoids : Option (List String)) (directory : String)
    (e : RawDirEntry) (part : List ParsedEntry) : Prop :=
  ∃ p, ParsedEntry.tryFrom directory e = .ok p ∧
    ((exclusionDecision fs avoids p.path = .ok true ∧ part = []) ∨
     (exclusionDecision fs avoids p.path = .ok false ∧
      ∃ sub, part = p :: sub ∧
        ((p.file_type = FileType.Directory ∧ ∃ sds, recur p.path = .ok (sub, sds)) ∨
         (p.file_type ≠ FileType.Directory ∧ sub = []))))

/-- Modelled from the spec: the extension extraction exactly as the
specification words it — "the substring after the last `.` in the
entry's base name (no extension if there is no `.` or the name has no
suffix after it)".  Kept separate from `extOfFileName` (the code's
`Path::extension` semantics) for refinement comparison. -/
def specExtensionOfName (name : String) : Option String :=
  match lastIndexOfDot name.toList with
  | none => none
  | some i =>
    if i + 1 = name.toList.length then none
    else some (String.mk (name.toList.drop (i + 1)))

/-- The UTF-8 bytes of an ASCII file name (used to build concrete raw
entries). -/
def strBytes (s : String) : List Nat := s.toList.map Char.toNat

/-- A concrete raw directory entry: a directory with mode `0o755`. -/
def dirRaw (n : String) : RawDirEntry := ⟨.ok (true, false, false), .ok 0o755, strBytes n⟩

/-- A concrete raw directory entry: a regular file with mode `0o644`. -/
def fileRaw (n : String) : RawDirEntry := ⟨.ok (false, true, false), .ok 0o644, strBytes n⟩

/-- A concrete raw directory entry: a regular file with the execute
bits set (mode `0o755`). -/
def execRaw (n : String) : RawDirEntry := ⟨.ok (false, true, false), .ok 0o755, strBytes n⟩

/-- A concrete raw directory entry whose type bits are none of
directory / regular file / symlink — what `entry.file_type()` reports
for a FIFO or a socket. -/
def fifoRaw : RawDirEntry := ⟨.ok (false, false, false), .ok 0o644, strBytes "fifo"⟩

/-- A concrete raw directory entry whose file name bytes (`[0xFF]`) are
not valid UTF-8. -/
def badNameEntry : RawDirEntry := ⟨.ok (false, true, false), .ok 0o644, [0xFF]⟩

/-- A concrete two-level filesystem used to instantiate the walk:
`/r` contains the directory `sub` and the file `a.txt`; `/r/sub`
contains the file `b.txt` and the executable `c.exe`; every other path
fails to enumerate; canonicalization is the identity. -/
def sampleFS : FileSystem where
  readDir := fun p =>
    if p = "/r" then .ok [dirRaw "sub", fileRaw "a.txt"]
    else if p = "/r/sub" then .ok [fileRaw "b.txt", execRaw "c.exe"]
    else .error "io"
  canonicalize := fun p => .ok p

/-- A concrete regex value (its matching predicate never matches). -/
def sampleRegex : Regex := ⟨fun _ => false⟩

/-- If the exclusion loop reports "do not skip", every exclusion entry
was canonicalized together with the child's path and none matched. -/
theorem checkExcluded_ok_false (fs : FileSystem) (path : String) :
    ∀ (l : List String), checkExcluded fs path l = .ok false →
    ∀ ex ∈ l, ∃ lhs rhs, fs.canonicalize path = .ok lhs ∧
      fs.canonicalize ex = .ok rhs ∧ pathStartsWith lhs rhs = false := by
  intro l
  induction l with
  | nil => intro _ ex hex; cases hex
  | cons a rest ih =>
    intro h ex hex
    simp only [checkExcluded] at h
    cases hl : fs.canonicalize path with
    | error m => simp [hl] at h
    | ok lhs =>
      simp only [hl] at h
      rw [← hl]
      cases hr : fs.canonicalize a with
      | error m => simp [hr] at h
      | ok rhs =>
        simp only [hr] at h
        by_cases hs : pathStartsWith lhs rhs
        · simp [hs] at h
        · rw [if_neg hs] at h
          rcases List.mem_cons.mp hex with rfl | hex'
          · exact ⟨lhs, rhs, hl, hr, by simpa using hs⟩
          · exact ih h ex hex'

/-- `checkExcluded_ok_false` lifted to the full exclusion check. -/
theorem exclusionDecision_ok_false (fs : FileSystem) (excludes : List String)
    (path : String) (h : exclusionDecision fs (some excludes) path = .ok false) :
    ∀ ex ∈ excludes, ∃ lhs rhs, fs.canonicalize path = .ok lhs ∧
      fs.canonicalize ex = .ok rhs ∧ pathStartsWith lhs rhs = false :=
  checkExcluded_ok_false fs path excludes h

/-- A `Forall₂` relates every member of the left list to some member of
the right list. -/
theorem forall₂_mem_left {α β : Type} {R : α → β → Prop} :
    ∀ {l : List α} {l2 : List β}, List.Forall₂ R l l2 → ∀ a ∈ l, ∃ b ∈ l2, R a b := by
  intro l
  induction l with
  | nil => intro l2 _ a ha; cases ha
  | cons x rest ih =>
    intro l2 hf a ha
    cases hf with
    | cons hx hrest =>
      rcases List.mem_cons.mp ha with rfl | ha'
      · exact ⟨_, List.mem_cons_self _ _, hx⟩
      · obtain ⟨b, hb, hr⟩ := ih hrest a ha'
        exact ⟨b, List.mem_cons_of_mem _ hb, hr⟩

/-- A successful pass of the per-child loop decomposes the visitor-call
sequence into one contribution per enumerated child, in enumeration
order. -/
theorem walkEntries_ok_decomp (recur : String → RRes WalkRes) (fs : FileSystem)
    (avoids : Option (List String)) (directory : String) :
    ∀ (l : List RawDirEntry) (vis : List ParsedEntry) (ds : List String),
    walkEntries recur fs avoids directory l = .ok (vis, ds) →
    ∃ parts : List (List ParsedEntry),
      vis = parts.flatten ∧
      List.Forall₂ (Contribution recur fs avoids directory) l parts := by
  intro l
  induction l with
  | nil =>
    intro vis ds h
    simp only [walkEntries, RRes.ok.injEq, Prod.mk.injEq] at h
    obtain ⟨h1, h2⟩ := h
    exact ⟨[], by simp [← h1], List.Forall₂.nil⟩
  | cons e rest ih =>
    intro vis ds h
    simp only [walkEntries] at h
    cases hp : ParsedEntry.tryFrom directory e with
    | err m => simp [hp] at h
    | panic => simp [hp] at h
    | ok p =>
      simp only [hp] at h
      cases hx : exclusionDecision fs avoids p.path with
      | error m => simp [hx] at h
      | ok b =>
        simp only [hx] at h
        cases b with
        | true =>
          obtain ⟨parts, hv, hf⟩ := ih vis ds h
          exact ⟨[] :: parts, by simp [hv],
            List.Forall₂.cons ⟨p, hp, Or.inl ⟨hx, rfl⟩⟩ hf⟩
        | false =>
          cases hs : (if p.file_type = FileType.Directory
                      then recur p.path else .ok ([], [])) with
          | err m => simp [hs] at h
          | panic => simp [hs] at h
          | ok sr =>
            obtain ⟨svis, sds⟩ := sr
            simp only [hs] at h
            cases hr : walkEntries recur fs avoids directory rest with
            | err m => simp [hr] at h
            | panic => simp [hr] at h
            | ok rr =>
              obtain ⟨rvis, rds⟩ := rr
              simp only [hr, RRes.ok.injEq, Prod.mk.injEq] at h
              obtain ⟨hv, hd⟩ := h
              obtain ⟨parts, hv2, hf⟩ := ih rvis rds hr
              refine ⟨(p :: svis) :: parts, ?_, ?_⟩
              · rw [← hv, hv2]; simp
              · refine List.Forall₂.cons ⟨p, hp, Or.inr ⟨hx, svis, rfl, ?_⟩⟩ hf
                by_cases hdir : p.file_type = FileType.Directory
                · rw [if_pos hdir] at hs
                  exact Or.inl ⟨hdir, sds, hs⟩
                · rw [if_neg hdir] at hs
                  simp only [RRes.ok.injEq, Prod.mk.injEq] at hs
                  exact Or.inr ⟨hdir, hs.1.symm⟩

/-- Origin of a visit produced by the per-child loop: it is either a
child of this directory itself, or lies in the recursive walk of a
directory-kind child. -/
theorem walkEntries_visited (recur : String → RRes WalkRes) (fs : FileSystem)
    (avoids : Option (List String)) (directory : String) :
    ∀ (l : List RawDirEntry) (vis : List ParsedEntry) (ds : List String)
      (p : ParsedEntry),
    walkEntries recur fs avoids directory l = .ok (vis, ds) → p ∈ vis →
    ∃ e ∈ l, ∃ q, ParsedEntry.tryFrom directory e = .ok q ∧
      (p = q ∨ (q.file_type = FileType.Directory ∧
        ∃ v2 d2, recur q.path = .ok (v2, d2) ∧ p ∈ v2)) := by
  intro l
  induction l with
  | nil =>
    intro vis ds p h hp
    simp only [walkEntries, RRes.ok.injEq, Prod.mk.injEq] at h
    rw [← h.1] at hp
    cases hp
  | cons e rest ih =>
    intro vis ds p h hp
    simp only [walkEntries] at h
    cases hq : ParsedEntry.tryFrom directory e with
    | err m => simp [hq] at h
    | panic => simp [hq] at h
    | ok q =>
      simp only [hq] at h
      cases hx : exclusionDecision fs avoids q.path with
      | error m => simp [hx] at h
      | ok b =>
        simp only [hx] at h
        cases b with
        | true =>
          obtain ⟨e', he', rest_res⟩ := ih vis ds p h hp
          exact ⟨e', List.mem_cons_of_mem _ he', rest_res⟩
        | false =>
          cases hs : (if q.file_type = FileType.Directory
                      then recur q.path else .ok ([], [])) with
          | err m => simp [hs] at h
          | panic => simp [hs] at h
          | ok sr =>
            obtain ⟨svis, sds⟩ := sr
            simp only [hs] at h
            cases hr : walkEntries recur fs avoids directory rest with
            | err m => simp [hr] at h
            | panic => simp [hr] at h
            | ok rr =>
              obtain ⟨rvis, rds⟩ := rr
              simp only [hr, RRes.ok.injEq, Prod.mk.injEq] at h
              rw [← h.1] at hp
              rcases List.mem_cons.mp hp with rfl | hp'
              · exact ⟨e, List.mem_cons_self _ _, p, hq, Or.inl rfl⟩
              · rcases List.mem_append.mp hp' with hsv | hrv
                · by_cases hdir : q.file_type = FileType.Directory
                  · rw [if_pos hdir] at hs
                    exact ⟨e, List.mem_cons_self _ _, q, hq,
                      Or.inr ⟨hdir, svis, sds, hs, hsv⟩⟩
                  · rw [if_neg hdir] at hs
                    simp only [RRes.ok.injEq, Prod.mk.injEq] at hs
                    rw [← hs.1] at hsv
                    cases hsv
                · obtain ⟨e', he', rest_res⟩ := ih rvis rds p hr hrv
                  exact ⟨e', List.mem_cons_of_mem _ he', rest_res⟩

/-- Every entry visited by a walk with remaining depth `n` lies between
`1` and `n` directory levels below the start directory. -/
theorem walk_visited_depth (fs : FileSystem) (avoids : Option (List String)) :
    ∀ (n : Nat) (dir : String) (vis : List ParsedEntry) (ds : List String)
      (p : ParsedEntry),
    walk_directory fs avoids n dir = .ok (vis, ds) → p ∈ vis →
    ∃ k, 1 ≤ k ∧ k ≤ n ∧ VisitedAtDepth fs dir p k := by
  intro n
  induction n with
  | zero =>
    intro dir vis ds p h hp
    simp only [walk_directory, RRes.ok.injEq, Prod.mk.injEq] at h
    rw [← h.1] at hp
    cases hp
  | succ n ih =>
    intro dir vis ds p h hp
    simp only [walk_directory] at h
    cases hd : fs.readDir dir with
    | error m => simp [hd] at h
    | ok entries =>
      simp only [hd] at h
      cases hw : walkEntries (walk_directory fs avoids n) fs avoids dir entries with
      | err m => simp [hw] at h
      | panic => simp [hw] at h
      | ok wr =>
        obtain ⟨wvis, wds⟩ := wr
        simp only [hw, RRes.ok.injEq, Prod.mk.injEq] at h
        rw [← h.1] at hp
        obtain ⟨e, he, q, hq, hor⟩ :=
          walkEntries_visited (walk_directory fs avoids n) fs avoids dir
            entries wvis wds p hw hp
        rcases hor with rfl | ⟨hdir, v2, d2, hrec, hpv⟩
        · exact ⟨1, le_refl 1, Nat.one_le_iff_ne_zero.mpr (Nat.succ_ne_zero n),
            VisitedAtDepth.base dir entries e p hd he hq⟩
        · obtain ⟨k, hk1, hkn, hvk⟩ := ih q.path v2 d2 p hrec hpv
          exact ⟨k + 1, Nat.le_add_left 1 k, Nat.succ_le_succ hkn,
            VisitedAtDepth.step dir entries e q p k hd he hq hdir hvk⟩

/-- Invariant of the per-child loop: every visit it records passed the
exclusion check negatively, and every directory it enumerates is the
path of a directory-kind entry it visits — provided the recursive walk
(`recur`) maintains the same invariant relative to its own start. -/
theorem walkEntries_inv (recur : String → RRes WalkRes) (fs : FileSystem)
    (avoids : Option (List String)) (directory : String)
    (hrec : ∀ path v2 d2, recur path = .ok (v2, d2) →
      (∀ p ∈ v2, exclusionDecision fs avoids p.path = .ok false) ∧
      (∀ d ∈ d2, d = path ∨ ∃ p ∈ v2, p.file_type = FileType.Directory ∧ d = p.path)) :
    ∀ (l : List RawDirEntry) (vis : List ParsedEntry) (ds : List String),
    walkEntries recur fs avoids directory l = .ok (vis, ds) →
    (∀ p ∈ vis, exclusionDecision fs avoids p.path = .ok false) ∧
    (∀ d ∈ ds, ∃ p ∈ vis, p.file_type = FileType.Directory ∧ d = p.path) := by
  intro l
  induction l with
  | nil =>
    intro vis ds h
    simp only [walkEntries, RRes.ok.injEq, Prod.mk.injEq] at h
    rw [← h.1, ← h.2]
    exact ⟨fun p hp => absurd hp (List.not_mem_nil p),
           fun d hd => absurd hd (List.not_mem_nil d)⟩
  | cons e rest ih =>
    intro vis ds h
    simp only [walkEntries] at h
    cases hq : ParsedEntry.tryFrom directory e with
    | err m => simp [hq] at h
    | panic => simp [hq] at h
    | ok q =>
      simp only [hq] at h
      cases hx : exclusionDecision fs avoids q.path with
      | error m => simp [hx] at h
      | ok b =>
        simp only [hx] at h
        cases b with
        | true => exact ih vis ds h
        | false =>
          cases hs : (if q.file_type = FileType.Directory
                      then recur q.path else .ok ([], [])) with
          | err m => simp [hs] at h
          | panic => simp [hs] at h
          | ok sr =>
            obtain ⟨svis, sds⟩ := sr
            simp only [hs] at h
            cases hr : walkEntries recur fs avoids directory rest with
            | err m => simp [hr] at h
            | panic => simp [hr] at h
            | ok rr =>
              obtain ⟨rvis, rds⟩ := rr
              simp only [hr, RRes.ok.injEq, Prod.mk.injEq] at h
              obtain ⟨hrest_v, hrest_d⟩ := ih rvis rds hr
              have hsub : (∀ p ∈ svis, exclusionDecision fs avoids p.path = .ok false) ∧
                  (∀ d ∈ sds, d = q.path ∨
                    ∃ p ∈ svis, p.file_type = FileType.Directory ∧ d = p.path) := by
                by_cases hdir : q.file_type = FileType.Directory
                · rw [if_pos hdir] at hs
                  exact hrec q.path svis sds hs
                · rw [if_neg hdir] at hs
                  simp only [RRes.ok.injEq, Prod.mk.injEq] at hs
                  rw [← hs.1, ← hs.2]
                  exact ⟨fun p hp => absurd hp (List.not_mem_nil p),
                         fun d hd => absurd hd (List.not_mem_nil d)⟩
              rw [← h.1, ← h.2]
              constructor
              · intro p hp
                rcases List.mem_cons.mp hp with rfl | hp'
                · exact hx
                · rcases List.mem_append.mp hp' with hsv | hrv
                  · exact hsub.1 p hsv
                  · exact hrest_v p hrv
              · intro d hd
                rcases List.mem_append.mp hd with hds | hdr
                · rcases hsub.2 d hds with rfl | ⟨p, hpv, hpd, hdp⟩
                  · -- the enumerated directory is the child q itself
                    refine ⟨q, List.mem_cons_self _ _, ?_, rfl⟩
                    by_cases hdir : q.file_type = FileType.Directory
                    · exact hdir
                    · rw [if_neg hdir] at hs
                      simp only [RRes.ok.injEq, Prod.mk.injEq] at hs
                      rw [← hs.2] at hds
                      cases hds
                  · exact ⟨p, List.mem_cons_of_mem _ (List.mem_append_left _ hpv), hpd, hdp⟩
                · obtain ⟨p, hpv, hpd, hdp⟩ := hrest_d d hdr
                  exact ⟨p, List.mem_cons_of_mem _ (List.mem_append_right _ hpv), hpd, hdp⟩

/-- Invariant of a successful walk: every visit passed the exclusion
check negatively, and every enumerated directory is the start directory
or the path of a visited directory-kind entry. -/
theorem walk_inv (fs : FileSystem) (avoids : Option (List String)) :
    ∀ (n : Nat) (dir : String) (vis : List ParsedEntry) (ds : List String),
    walk_directory fs avoids n dir = .ok (vis, ds) →
    (∀ p ∈ vis, exclusionDecision fs avoids p.path = .ok false) ∧
    (∀ d ∈ ds, d = dir ∨ ∃ p ∈ vis, p.file_type = FileType.Directory ∧ d = p.path) := by
  intro n
  induction n with
  | zero =>
    intro dir vis ds h
    simp only [walk_directory, RRes.ok.injEq, Prod.mk.injEq] at h
    rw [← h.1, ← h.2]
    exact ⟨fun p hp => absurd hp (List.not_mem_nil p),
           fun d hd => absurd hd (List.not_mem_nil d)⟩
  | succ n ih =>
    intro dir vis ds h
    simp only [walk_directory] at h
    cases hd : fs.readDir dir with
    | error m => simp [hd] at h
    | ok entries =>
      simp only [hd] at h
      cases hw : walkEntries (walk_directory fs avoids n) fs avoids dir entries with
      | err m => simp [hw] at h
      | panic => simp [hw] at h
      | ok wr =>
        obtain ⟨wvis, wds⟩ := wr
        simp only [hw, RRes.ok.injEq, Prod.mk.injEq] at h
        obtain ⟨hv, hds⟩ :=
          walkEntries_inv (walk_directory fs avoids n) fs avoids dir
            (fun path v2 d2 hr => ih path v2 d2 hr) entries wvis wds hw
        rw [← h.1, ← h.2]
        constructor
        · exact hv
        · intro d hdm
          rcases List.mem_cons.mp hdm with rfl | hdm'
          · exact Or.inl rfl
          · obtain ⟨p, hpv, hpd, hdp⟩ := hds d hdm'
            exact Or.inr ⟨p, hpv, hpd, hdp⟩

/-- Monotonicity of the per-child loop in the recursive walk: if two
runs over the same children both succeed and the second recursion
visits at least what the first does, the second run visits at least
what the first does. -/
theorem walkEntries_mono (recur1 recur2 : String → RRes WalkRes) (fs : FileSystem)
    (avoids : Option (List String)) (directory : String)
    (hrec : ∀ path a b a2 b2, recur1 path = .ok (a, b) → recur2 path = .ok (a2, b2) →
      ∀ x ∈ a, x ∈ a2) :
    ∀ (l : List RawDirEntry) (v1 : List ParsedEntry) (d1 : List String)
      (v2 : List ParsedEntry) (d2 : List String),
    walkEntries recur1 fs avoids directory l = .ok (v1, d1) →
    walkEntries recur2 fs avoids directory l = .ok (v2, d2) →
    ∀ x ∈ v1, x ∈ v2 := by
  intro l
  induction l with
  | nil =>
    intro v1 d1 v2 d2 h1 h2 x hx
    simp only [walkEntries, RRes.ok.injEq, Prod.mk.injEq] at h1
    rw [← h1.1] at hx
    cases hx
  | cons e rest ih =>
    intro v1 d1 v2 d2 h1 h2 x hx
    simp only [walkEntries] at h1 h2
    cases hq : ParsedEntry.tryFrom directory e with
    | err m => simp [hq] at h1
    | panic => simp [hq] at h1
    | ok q =>
      simp only [hq] at h1 h2
      cases hxd : exclusionDecision fs avoids q.path with
      | error m => simp [hxd] at h1
      | ok b =>
        simp only [hxd] at h1 h2
        cases b with
        | true => exact ih v1 d1 v2 d2 h1 h2 x hx
        | false =>
          cases hs1 : (if q.file_type = FileType.Directory
                       then recur1 q.path else .ok ([], [])) with
          | err m => simp [hs1] at h1
          | panic => simp [hs1] at h1
          | ok sr1 =>
            obtain ⟨sv1, sd1⟩ := sr1
            simp only [hs1] at h1
            cases hr1 : walkEntries recur1 fs avoids directory rest with
            | err m => simp [hr1] at h1
            | panic => simp [hr1] at h1
            | ok rr1 =>
              obtain ⟨rv1, rd1⟩ := rr1
              simp only [hr1, RRes.ok.injEq, Prod.mk.injEq] at h1
              cases hs2 : (if q.file_type = FileType.Directory
                           then recur2 q.path else .ok ([], [])) with
              | err m => simp [hs2] at h2
              | panic => simp [hs2] at h2
              | ok sr2 =>
                obtain ⟨sv2, sd2⟩ := sr2
                simp only [hs2] at h2
                cases hr2 : walkEntries recur2 fs avoids directory rest with
                | err m => simp [hr2] at h2
                | panic => simp [hr2] at h2
                | ok rr2 =>
                  obtain ⟨rv2, rd2⟩ := rr2
                  simp only [hr2, RRes.ok.injEq, Prod.mk.injEq] at h2
                  rw [← h1.1] at hx
                  rw [← h2.1]
                  rcases List.mem_cons.mp hx with rfl | hx'
                  · exact List.mem_cons_self _ _
                  · refine List.mem_cons_of_mem _ ?_
                    rcases List.mem_append.mp hx' with hsv | hrv
                    · refine List.mem_append_left _ ?_
                      by_cases hdir : q.file_type = FileType.Directory
                      · rw [if_pos hdir] at hs1 hs2
                        exact hrec q.path sv1 sd1 sv2 sd2 hs1 hs2 x hsv
                      · rw [if_neg hdir] at hs1
                        simp only [RRes.ok.injEq, Prod.mk.injEq] at hs1
                        rw [← hs1.1] at hsv
                        cases hsv
                    · exact List.mem_append_right _
                        (ih rv1 rd1 rv2 rd2 hr1 hr2 x hrv)

/-- Monotonicity of the walk in the depth bound: when both walks
succeed, raising the remaining depth never loses a visit. -/
theorem walk_mono (fs : FileSystem) (avoids : Option (List String)) :
    ∀ (n m : Nat) (dir : String) (v1 : List ParsedEntry) (d1 : List String)
      (v2 : List ParsedEntry) (d2 : List String),
    n ≤ m →
    walk_directory fs avoids n dir = .ok (v1, d1) →
    walk_directory fs avoids m dir = .ok (v2, d2) →
    ∀ x ∈ v1, x ∈ v2 := by
  intro n
  induction n with
  | zero =>
    intro m dir v1 d1 v2 d2 _ h1 _ x hx
    simp only [walk_directory, RRes.ok.injEq, Prod.mk.injEq] at h1
    rw [← h1.1] at hx
    cases hx
  | succ n ih =>
    intro m dir v1 d1 v2 d2 hnm h1 h2 x hx
    obtain ⟨m', rfl⟩ : ∃ m', m = m' + 1 := by
      cases m with
      | zero => exact absurd hnm (by simp)
      | succ m' => exact ⟨m', rfl⟩
    have hm' : n ≤ m' := Nat.succ_le_succ_iff.mp hnm
    simp only [walk_directory] at h1 h2
    cases hd : fs.readDir dir with
    | error mm => simp [hd] at h1
    | ok entries =>
      simp only [hd] at h1 h2
      cases hw1 : walkEntries (walk_directory fs avoids n) fs avoids dir entries with
      | err mm => simp [hw1] at h1
      | panic => simp [hw1] at h1
      | ok wr1 =>
        obtain ⟨wv1, wd1⟩ := wr1
        simp only [hw1, RRes.ok.injEq, Prod.mk.injEq] at h1
        cases hw2 : walkEntries (walk_directory fs avoids m') fs avoids dir entries with
        | err mm => simp [hw2] at h2
        | panic => simp [hw2] at h2
        | ok wr2 =>
          obtain ⟨wv2, wd2⟩ := wr2
          simp only [hw2, RRes.ok.injEq, Prod.mk.injEq] at h2
          rw [← h1.1] at hx
          rw [← h2.1]
          exact walkEntries_mono (walk_directory fs avoids n)
            (walk_directory fs avoids m') fs avoids dir
            (fun path a b a2 b2 ha ha2 => ih m' path a b a2 b2 hm' ha ha2)
            entries wv1 wd1 wv2 wd2 hw1 hw2 x hx

/-- Completeness at the children level: a successful walk with positive
remaining depth visits every enumerated child that parses and is not
excluded — whatever its kind. -/
theorem walk_child_complete (fs : FileSystem) (avoids : Option (List String))
    (n : Nat) (dir : String) (entries : List RawDirEntry) (e : RawDirEntry)
    (p : ParsedEntry) (vis : List ParsedEntry) (ds : List String)
    (h : walk_directory fs avoids (n + 1) dir = .ok (vis, ds))
    (hd : fs.readDir dir = .ok entries) (he : e ∈ entries)
    (hp : ParsedEntry.tryFrom dir e = .ok p)
    (hx : exclusionDecision fs avoids p.path = .ok false) : p ∈ vis := by
  simp only [walk_directory, hd] at h
  cases hw : walkEntries (walk_directory fs avoids n) fs avoids dir entries with
  | err m => simp [hw] at h
  | panic => simp [hw] at h
  | ok wr =>
    obtain ⟨wvis, wds⟩ := wr
    simp only [hw, RRes.ok.injEq, Prod.mk.injEq] at h
    rw [← h.1]
    obtain ⟨parts, hflat, hf⟩ :=
      walkEntries_ok_decomp (walk_directory fs avoids n) fs avoids dir
        entries wvis wds hw
    obtain ⟨part, hpart, p', hp', hbr⟩ := forall₂_mem_left hf e he
    have : p' = p := by
      rw [hp] at hp'
      exact (RRes.ok.inj hp').symm
    rw [this] at hbr
    rcases hbr with ⟨hxt, _⟩ | ⟨_, sub, hpart_eq, _⟩
    · rw [hx] at hxt
      simp at hxt
    · rw [hflat]
      exact List.mem_flatten.mpr ⟨part, hpart, by rw [hpart_eq]; exact List.mem_cons_self _ _⟩

/-- C1.  Exclusion pruning: in any successful walk with a non-empty
exclusion list, every entry passed to the visitor has a canonical path
that is NOT equal to or nested under (`Path::starts_with`) the
canonical path of any exclusion entry — so a child that does canonically
match an exclusion is never visited — and the walk only ever enumerates
the start directory or the path of a visited directory-kind entry, so a
skipped child's subtree is never enumerated. -/
theorem claim_C1 (fs : FileSystem) (excludes : List String) (depth : Nat)
    (dir : String) (vis : List ParsedEntry) (ds : List String)
    (hne : excludes ≠ [])
    (h : walk_directory fs (some excludes) depth dir = .ok (vis, ds)) :
    (∀ p ∈ vis, ∀ ex ∈ excludes, ∃ lhs rhs,
        fs.canonicalize p.path = .ok lhs ∧ fs.canonicalize ex = .ok rhs ∧
        pathStartsWith lhs rhs = false)
    ∧ (∀ d ∈ ds, d = dir ∨ ∃ p ∈ vis, p.file_type = FileType.Directory ∧ d = p.path) := by
  obtain ⟨hv, hd⟩ := walk_inv fs (some excludes) depth dir vis ds h
  exact ⟨fun p hp => exclusionDecision_ok_false fs excludes p.path (hv p hp), hd⟩

/-- Witness for C1: in the sample filesystem, excluding `/r/sub` makes
the walk visit only `/r/a.txt` and enumerate only `/r`, and the
theorem's conclusions hold at that instance. -/
theorem claim_C1_witness :
    (["/r/sub"] ≠ ([] : List String))
    ∧ walk_directory sampleFS (some ["/r/sub"]) 5 "/r" =
        .ok ([⟨FileType.RegularFile, "a.txt", "/r/a.txt"⟩], ["/r"])
    ∧ ((∀ p ∈ [(⟨FileType.RegularFile, "a.txt", "/r/a.txt"⟩ : ParsedEntry)],
          ∀ ex ∈ ["/r/sub"], ∃ lhs rhs,
          sampleFS.canonicalize p.path = .ok lhs ∧
          sampleFS.canonicalize ex = .ok rhs ∧ pathStartsWith lhs rhs = false)
       ∧ (∀ d ∈ ["/r"], d = "/r" ∨
            ∃ p ∈ [(⟨FileType.RegularFile, "a.txt", "/r/a.txt"⟩ : ParsedEntry)],
              p.file_type = FileType.Directory ∧ d = p.path)) :=
  ⟨by simp, by rfl,
   claim_C1 sampleFS ["/r/sub"] 5 "/r"
     [⟨FileType.RegularFile, "a.txt", "/r/a.txt"⟩] ["/r"] (by simp) (by rfl)⟩

/-- C2.  Depth bound: with remaining depth `0` the walk returns `Ok` at
once — visiting nothing and enumerating nothing, whatever the
filesystem; with remaining depth `n` every visited entry lies between
`1` and `n` directory levels below the start directory; with depth `1`
every visited entry is an immediate child, and every enumerated,
parsed, non-excluded immediate child (subdirectories included) is
visited; and raising the depth bound (the default is
`usize::MAX = 2^64 - 1`, effectively unbounded) never loses a visit. -/
theorem claim_C2 (fs : FileSystem) (avoids : Option (List String)) (dir : String) :
    (walk_directory fs avoids 0 dir = .ok ([], []))
    ∧ (∀ n vis ds p, walk_directory fs avoids n dir = .ok (vis, ds) → p ∈ vis →
        ∃ k, 1 ≤ k ∧ k ≤ n ∧ VisitedAtDepth fs dir p k)
    ∧ (∀ vis ds p, walk_directory fs avoids 1 dir = .ok (vis, ds) → p ∈ vis →
        VisitedAtDepth fs dir p 1)
    ∧ (∀ entries e p vis ds, walk_directory fs avoids 1 dir = .ok (vis, ds) →
        fs.readDir dir = .ok entries → e ∈ entries →
        ParsedEntry.tryFrom dir e = .ok p →
        exclusionDecision fs avoids p.path = .ok false → p ∈ vis)
    ∧ (∀ n m vis ds vism dsm p, n ≤ m →
        walk_directory fs avoids n dir = .ok (vis, ds) →
        walk_directory fs avoids m dir = .ok (vism, dsm) →
        p ∈ vis → p ∈ vism) := by
  refine ⟨rfl, ?_, ?_, ?_, ?_⟩
  · exact fun n vis ds p h hp => walk_visited_depth fs avoids n dir vis ds p h hp
  · intro vis ds p h hp
    obtain ⟨k, hk1, hk2, hv⟩ := walk_visited_depth fs avoids 1 dir vis ds p h hp
    have : k = 1 := Nat.le_antisymm hk2 hk1
    rw [← this]
    exact hv
  · exact fun entries e p vis ds h hd he hp hx =>
      walk_child_complete fs avoids 0 dir entries e p vis ds h hd he hp hx
  · exact fun n m vis ds vism dsm p hnm h1 h2 hp =>
      walk_mono fs avoids n m dir vis ds vism dsm hnm h1 h2 p hp

/-- Witness for C2: in the sample filesystem a walk of `/r` with depth
`1` visits exactly the immediate children `sub` and `a.txt` — the
subdirectory `sub` itself is visited, at level `1`, and nothing below
it — and the entry `b.txt` visited by the depth-`2` walk is also
visited by the depth-`5` walk. -/
theorem claim_C2_witness :
    walk_directory sampleFS none 1 "/r" =
      .ok ([⟨FileType.Directory, "sub", "/r/sub"⟩,
            ⟨FileType.RegularFile, "a.txt", "/r/a.txt"⟩], ["/r"])
    ∧ VisitedAtDepth sampleFS "/r" ⟨FileType.Directory, "sub", "/r/sub"⟩ 1
    ∧ (⟨FileType.RegularFile, "b.txt", "/r/sub/b.txt"⟩ : ParsedEntry) ∈
        [(⟨FileType.Directory, "sub", "/r/sub"⟩ : ParsedEntry),
         ⟨FileType.RegularFile, "b.txt", "/r/sub/b.txt"⟩,
         ⟨FileType.Executable, "c.exe", "/r/sub/c.exe"⟩,
         ⟨FileType.RegularFile, "a.txt", "/r/a.txt"⟩] :=
  ⟨by rfl,
   (claim_C2 sampleFS none "/r").2.2.1
     [⟨FileType.Directory, "sub", "/r/sub"⟩, ⟨FileType.RegularFile, "a.txt", "/r/a.txt"⟩]
     ["/r"] ⟨FileType.Directory, "sub", "/r/sub"⟩ (by rfl) (by decide),
   (claim_C2 sampleFS none "/r").2.2.2.2 2 5
     [⟨FileType.Directory, "sub", "/r/sub"⟩,
      ⟨FileType.RegularFile, "b.txt", "/r/sub/b.txt"⟩,
      ⟨FileType.Executable, "c.exe", "/r/sub/c.exe"⟩,
      ⟨FileType.RegularFile, "a.txt", "/r/a.txt"⟩]
     ["/r", "/r/sub"]
     [⟨FileType.Directory, "sub", "/r/sub"⟩,
      ⟨FileType.RegularFile, "b.txt", "/r/sub/b.txt"⟩,
      ⟨FileType.Executable, "c.exe", "/r/sub/c.exe"⟩,
      ⟨FileType.RegularFile, "a.txt", "/r/a.txt"⟩]
     ["/r", "/r/sub"]
     ⟨FileType.RegularFile, "b.txt", "/r/sub/b.txt"⟩
     (by decide) (by rfl) (by rfl) (by decide)⟩

/-- A successful walk with positive remaining depth decomposes its
visitor-call sequence into one contribution per enumerated child, in
enumeration order. -/
theorem walk_succ_decomp (fs : FileSystem) (avoids : Option (List String)) (n : Nat)
    (dir : String) (entries : List RawDirEntry) (vis : List ParsedEntry)
    (ds : List String)
    (h : walk_directory fs avoids (n + 1) dir = .ok (vis, ds))
    (hd : fs.readDir dir = .ok entries) :
    ∃ parts : List (List ParsedEntry),
      vis = parts.flatten ∧
      List.Forall₂ (Contribution (walk_directory fs avoids n) fs avoids dir)
        entries parts := by
  simp only [walk_directory, hd] at h
  cases hw : walkEntries (walk_directory fs avoids n) fs avoids dir entries with
  | err m => simp [hw] at h
  | panic => simp [hw] at h
  | ok wr =>
    obtain ⟨wvis, wds⟩ := wr
    simp only [hw, RRes.ok.injEq, Prod.mk.injEq] at h
    rw [← h.1]
    exact walkEntries_ok_decomp (walk_directory fs avoids n) fs avoids dir
      entries wvis wds hw

/-- C3.  Exactly-once pre-order visitation: in any successful walk with
positive remaining depth, the visitor-call sequence is the
concatenation, in enumeration order, of one contribution per enumerated
child; a non-excluded child — whatever its kind, directories included —
contributes exactly one visit of itself, placed before all the visits
of its recursive subtree, so every directory is visited before any of
its descendants. -/
theorem claim_C3 (fs : FileSystem) (avoids : Option (List String)) (n : Nat)
    (dir : String) (entries : List RawDirEntry) (vis : List ParsedEntry)
    (ds : List String)
    (h : walk_directory fs avoids (n + 1) dir = .ok (vis, ds))
    (hd : fs.readDir dir = .ok entries) :
    ∃ parts : List (List ParsedEntry),
      vis = parts.flatten ∧
      List.Forall₂ (Contribution (walk_directory fs avoids n) fs avoids dir)
        entries parts :=
  walk_succ_decomp fs avoids n dir entries vis ds h hd

/-- Witness for C3: the depth-`2` walk of the sample filesystem
decomposes into the contribution of `sub` (the directory itself first,
then its two children) followed by the contribution of `a.txt`. -/
theorem claim_C3_witness :
    walk_directory sampleFS none 2 "/r" =
      .ok ([⟨FileType.Directory, "sub", "/r/sub"⟩,
            ⟨FileType.RegularFile, "b.txt", "/r/sub/b.txt"⟩,
            ⟨FileType.Executable, "c.exe", "/r/sub/c.exe"⟩,
            ⟨FileType.RegularFile, "a.txt", "/r/a.txt"⟩], ["/r", "/r/sub"])
    ∧ sampleFS.readDir "/r" = .ok [dirRaw "sub", fileRaw "a.txt"]
    ∧ ∃ parts : List (List ParsedEntry),
        [(⟨FileType.Directory, "sub", "/r/sub"⟩ : ParsedEntry),
         ⟨FileType.RegularFile, "b.txt", "/r/sub/b.txt"⟩,
         ⟨FileType.Executable, "c.exe", "/r/sub/c.exe"⟩,
         ⟨FileType.RegularFile, "a.txt", "/r/a.txt"⟩] = parts.flatten ∧
        List.Forall₂ (Contribution (walk_directory sampleFS none 1) sampleFS none "/r")
          [dirRaw "sub", fileRaw "a.txt"] parts :=
  ⟨by rfl, by rfl,
   claim_C3 sampleFS none 1 "/r" [dirRaw "sub", fileRaw "a.txt"]
     [⟨FileType.Directory, "sub", "/r/sub"⟩,
      ⟨FileType.RegularFile, "b.txt", "/r/sub/b.txt"⟩,
      ⟨FileType.Executable, "c.exe", "/r/sub/c.exe"⟩,
      ⟨FileType.RegularFile, "a.txt", "/r/a.txt"⟩]
     ["/r", "/r/sub"] (by rfl) (by rfl)⟩

/-- C8.  Fail-fast error propagation: an enumeration failure on the
directory being walked propagates as the walk's error; a classification
failure on the first child aborts the walk with that error; a
canonicalization failure during the first child's exclusion check
aborts the walk with that error; and conversely a successful walk has
fully processed every enumerated child — it parsed, its exclusion check
completed, and if visited and a directory its own subwalk succeeded —
so no failing child is ever silently skipped (the recursive clause
applies the same fact one level down). -/
theorem claim_C8 (fs : FileSystem) (avoids : Option (List String)) (n : Nat)
    (dir : String) :
    (∀ msg, fs.readDir dir = .error msg →
       walk_directory fs avoids (n + 1) dir = .err msg)
    ∧ (∀ e rest msg, fs.readDir dir = .ok (e :: rest) →
        ParsedEntry.tryFrom dir e = .err msg →
        walk_directory fs avoids (n + 1) dir = .err msg)
    ∧ (∀ e rest p msg, fs.readDir dir = .ok (e :: rest) →
        ParsedEntry.tryFrom dir e = .ok p →
        exclusionDecision fs avoids p.path = .error msg →
        walk_directory fs avoids (n + 1) dir = .err msg)
    ∧ (∀ entries vis ds, walk_directory fs avoids (n + 1) dir = .ok (vis, ds) →
        fs.readDir dir = .ok entries →
        ∀ e ∈ entries, ∃ p b, ParsedEntry.tryFrom dir e = .ok p ∧
          exclusionDecision fs avoids p.path = .ok b ∧
          (b = false → p.file_type = FileType.Directory →
            ∃ sub, walk_directory fs avoids n p.path = .ok sub)) := by
  refine ⟨?_, ?_, ?_, ?_⟩
  · intro msg h
    simp [walk_directory, h]
  · intro e rest msg hd hp
    simp [walk_directory, hd, walkEntries, hp]
  · intro e rest p msg hd hp hx
    simp [walk_directory, hd, walkEntries, hp, hx]
  · intro entries vis ds h hd e he
    obtain ⟨parts, _, hf⟩ := walk_succ_decomp fs avoids n dir entries vis ds h hd
    obtain ⟨part, _, p, hp, hbr⟩ := forall₂_mem_left hf e he
    rcases hbr with ⟨hxt, _⟩ | ⟨hxf, sub, _, hkind⟩
    · exact ⟨p, true, hp, hxt, fun hfalse _ => absurd hfalse (by simp)⟩
    · refine ⟨p, false, hp, hxf, fun _ hdir => ?_⟩
      rcases hkind with ⟨_, sds, hrec⟩ | ⟨hnd, _⟩
      · exact ⟨(sub, sds), hrec⟩
      · exact absurd hdir hnd

/-- Witness for C8: enumerating `/nope` in the sample filesystem fails
with `"io"`, and the walk propagates exactly that error. -/
theorem claim_C8_witness :
    sampleFS.readDir "/nope" = .error "io"
    ∧ walk_directory sampleFS none 1 "/nope" = .err "io" :=
  ⟨by rfl, (claim_C8 sampleFS none 0 "/nope").1 "io" (by rfl)⟩

/-- C4.  Classification override order: whenever classification
succeeds, an entry whose type bits report a directory is classified
`Directory` — never `Executable`, whatever its mode bits — and a
non-directory entry with any execute bit (`mode & 0o111 != 0`) set is
classified `Executable`, overriding both `RegularFile` and `SymLink`. -/
theorem claim_C4 (entry : RawDirEntry) (k : FileType) (isDir isFile isSym : Bool)
    (hok : FileType.tryFrom entry = .ok k)
    (hft : entry.fileTypeRes = .ok (isDir, isFile, isSym)) :
    (isDir = true → k = FileType.Directory ∧ k ≠ FileType.Executable)
    ∧ (isDir = false → ∀ mode, entry.metadataMode = .ok mode →
        Nat.land mode FileModeMask.Executable.toU32 ≠ 0 → k = FileType.Executable) := by
  simp only [FileType.tryFrom, hft] at hok
  cases isDir <;> cases isFile <;> cases isSym <;> simp only [] at hok
  case false.false.false => simp at hok
  case false.false.true =>
    constructor
    · intro hc; cases hc
    · intro _ mode hm hexec
      rw [hm] at hok
      simp only [RRes.ok.injEq] at hok
      rw [← hok]
      simp [hexec]
  case false.true.false =>
    constructor
    · intro hc; cases hc
    · intro _ mode hm hexec
      rw [hm] at hok
      simp only [RRes.ok.injEq] at hok
      rw [← hok]
      simp [hexec]
  case false.true.true => simp at hok
  case true.false.false =>
    constructor
    · intro _
      cases hm : entry.metadataMode with
      | error m => rw [hm] at hok; simp at hok
      | ok mode =>
        rw [hm] at hok
        simp only [RRes.ok.injEq] at hok
        rw [← hok]
        simp
    · intro hc; cases hc
  case true.false.true => simp at hok
  case true.true.false => simp at hok
  case true.true.true => simp at hok

/-- Witness for C4: a regular file with mode `0o755` (the sample
`run.sh`) classifies as `Executable`, and the theorem's conclusions
hold at that instance. -/
theorem claim_C4_witness :
    FileType.tryFrom (execRaw "run.sh") = .ok FileType.Executable
    ∧ ((false = true → FileType.Executable = FileType.Directory ∧
          FileType.Executable ≠ FileType.Executable)
       ∧ (false = false → ∀ mode, (execRaw "run.sh").metadataMode = .ok mode →
            Nat.land mode FileModeMask.Executable.toU32 ≠ 0 →
            FileType.Executable = FileType.Executable)) :=
  ⟨by rfl,
   claim_C4 (execRaw "run.sh") FileType.Executable false true false
     (by rfl) (by rfl)⟩

/-- C5 (failing input).  Classification is NOT total: on an entry whose
type bits report neither directory nor regular file nor symlink — what
`entry.file_type()` reports for a FIFO or a socket — the classifier
falls into the `unreachable!()` branch and panics instead of producing
a kind. -/
theorem claim_C5 :
    fifoRaw.fileTypeRes = .ok (false, false, false)
    ∧ FileType.tryFrom fifoRaw = RRes.panic :=
  ⟨by rfl, by rfl⟩

/-- Counterexample to C6 as stated: supplying both an extension list
and a regex is NOT rejected as an ambiguous configuration — the mode
resolves to `Extension`. -/
theorem claim_C6_cex :
    deduce_search_mode none none (some ["txt"]) (some sampleRegex) =
      .ok SearchMode.Extension :=
  by rfl

/-- C6 (amended).  Mode determination, deduced once before traversal:
a target without a kind gives `Target` and a kind without a target
gives `Type`, whatever else is supplied; otherwise a supplied extension
list wins (in particular over a simultaneously supplied regex — the
combination is not rejected), then a supplied regex, then target and
kind together give `TargetAndType`; supplying none of the four options
is a configuration error, surfaced before the filesystem is ever
consulted. -/
theorem claim_C6 (t : String) (ty : FileType) (es : List String) (r : Regex)
    (oes : Option (List String)) (orr : Option Regex) :
    deduce_search_mode (some t) none oes orr = .ok SearchMode.Target
    ∧ deduce_search_mode none (some ty) oes orr = .ok SearchMode.Type
    ∧ deduce_search_mode (some t) (some ty) (some es) orr = .ok SearchMode.Extension
    ∧ deduce_search_mode none none (some es) orr = .ok SearchMode.Extension
    ∧ deduce_search_mode (some t) (some ty) none (some r) = .ok SearchMode.Regex
    ∧ deduce_search_mode none none none (some r) = .ok SearchMode.Regex
    ∧ deduce_search_mode (some t) (some ty) none none = .ok SearchMode.TargetAndType
    ∧ (∃ msg, deduce_search_mode none none none none = .error msg)
    ∧ (∀ fs dir avoids dep, ∃ msg,
         run_search fs none none none none dir avoids dep = .err msg) := by
  refine ⟨?_, ?_, by cases orr <;> rfl, by cases orr <;> rfl, by rfl, by rfl,
    by rfl, ⟨_, rfl⟩, ?_⟩
  · cases oes <;> cases orr <;> rfl
  · cases oes <;> cases orr <;> rfl
  · intro fs dir avoids dep
    exact ⟨_, rfl⟩

/-- Counterexample to C7 as stated: the code extracts extensions with
`Path::extension`, not "the substring after the last `.`": a dotfile
(`.bashrc`) has NO extension for the code and never matches, though the
claim's extraction rule gives it extension `bashrc`; and a name ending
in `.` (claimed to have no extension) has the EMPTY extension for the
code and does match an empty-string member. -/
theorem claim_C7_cex :
    extension_from_path "/home/user/.bashrc" = none
    ∧ specExtensionOfName ".bashrc" = some "bashrc"
    ∧ match_extensions ["bashrc"]
        ⟨FileType.RegularFile, ".bashrc", "/home/user/.bashrc"⟩ = []
    ∧ specExtensionOfName "trailing." = none
    ∧ match_extensions [""]
        ⟨FileType.RegularFile, "trailing.", "/a/trailing."⟩ = ["/a/trailing."] :=
  ⟨by rfl, by rfl, by rfl, by rfl, by rfl⟩

/-- C7 (amended).  Extension matching with the code's `Path::extension`
semantics: an entry matches `ByExtension(extensions)` exactly when its
path has an extracted extension equal (case-sensitively) to some
member, so an entry without one never matches; the extracted extension
of `archive.tar.gz` is `gz`, a dotless name (`README`) has none, a
dotfile (`.bashrc`) has none, and a name ending in `.` has the empty
extension. -/
theorem claim_C7 (exts : List String) (e : ParsedEntry) :
    ((match_extensions exts e ≠ []) ↔
      ∃ t, extension_from_path e.path = some t ∧ t ∈ exts)
    ∧ extension_from_path "/a/archive.tar.gz" = some "gz"
    ∧ extension_from_path "/a/README" = none
    ∧ extension_from_path "/a/.bashrc" = none
    ∧ extension_from_path "/a/trailing." = some "" := by
  refine ⟨?_, by rfl, by rfl, by rfl, by rfl⟩
  unfold match_extensions
  cases h : extension_from_path e.path with
  | none => simp
  | some t0 =>
    simp only [ne_eq, List.map_eq_nil_iff, List.filter_eq_nil_iff,
      Option.some.injEq]
    constructor
    · intro hne
      push_neg at hne
      obtain ⟨a, ha, hat⟩ := hne
      have : a = t0 := by simpa using hat
      exact ⟨t0, rfl, this ▸ ha⟩
    · rintro ⟨t, rfl, ht⟩
      intro hall
      have h2 := hall t0 ht
      simp at h2

/-- Counterexample to C9 as stated: with a duplicated member in the
extensions list, a single visited entry produces two output lines — the
extension matcher prints once per equal member, not once per entry. -/
theorem claim_C9_cex :
    match_extensions ["txt", "txt"] ⟨FileType.RegularFile, "a.txt", "/r/a.txt"⟩ =
      ["/r/a.txt", "/r/a.txt"]
    ∧ (match_extensions ["txt", "txt"]
        ⟨FileType.RegularFile, "a.txt", "/r/a.txt"⟩).length = 2 :=
  ⟨by rfl, by rfl⟩

/-- C9 (amended).  One line per match, per matcher: the name, kind,
name-and-kind and regex matchers print at most one line per visited
entry; the extension matcher prints exactly one line per member of the
extensions list equal to the entry's extracted extension — so duplicate
members produce duplicate lines, and otherwise at most one line is
printed. -/
theorem claim_C9 (t : String) (k : FileType) (r : Regex) (es : List String)
    (e : ParsedEntry) :
    (match_target t e).length ≤ 1
    ∧ (match_type k e).length ≤ 1
    ∧ (match_target_and_type t k e).length ≤ 1
    ∧ (match_regex r e).length ≤ 1
    ∧ (match_extensions es e).length =
        (match extension_from_path e.path with
         | none => 0
         | some t0 => es.count t0) := by
  refine ⟨?_, ?_, ?_, ?_, ?_⟩
  · unfold match_target; split <;> simp
  · unfold match_type; split <;> simp
  · unfold match_target_and_type; split <;> simp
  · unfold match_regex; split <;> simp
  · unfold match_extensions
    cases h : extension_from_path e.path with
    | none => simp
    | some t0 =>
      simp only [List.length_map, List.count_eq_countP,
        List.countP_eq_length_filter]
      congr 1

/-- C10.  The conversion of a raw directory entry whose file name is
not valid UTF-8 panics at the `unwrap()` instead of returning an
error: the name bytes `[0xFF]` fail UTF-8 decoding, and
`ParsedEntry::try_from` evaluates to a panic, not to an `Err`. -/
theorem claim_C10 :
    utf8Decode badNameEntry.fileName = none
    ∧ osStringIntoString badNameEntry.fileName = .error badNameEntry.fileName
    ∧ ParsedEntry.tryFrom "/start" badNameEntry = RRes.panic :=
  ⟨by rfl, by rfl, by rfl⟩
